import Mathlib

/-!
Verification of the learnarrange-hub course-content manager.

Shallow embedding of the ordered-hierarchy logic of the repository:
the drag-and-drop reorder reconciler (`handleDragEnd` in the CourseManager
page and `handleLessonDragEnd` in `ModuleCard.tsx`, both built on
the dnd-kit `arrayMove`), the position writes (`updateModulePositions`,
`updateLessonPositions`), add/delete of modules and lessons, the bulk
replace engine (`validateAndPreview`/`processImport` in the import dialog,
`createSnapshot`/`restoreSnapshot` in the snapshot manager), JSON export
(`exportData`), and the read feed (`supabase/functions/courses-api`).

Modelling conventions:
- database/entity ids (UUIDs) are modelled as `Nat`; they are opaque in the
  source and only compared for equality;
- the dnd-kit drag ids `module-<id>` / `lesson-<id>` are string-tagged in the
  source; the prefix test `String.startsWith` with the module tag and the
  comparison with a template literal are modelled by the tagged type `DragId`;
- asynchronous store writes are modelled by their resulting row contents;
  a function returning the store content after an operation assumes every
  write succeeded (the success path of the source).
-/

namespace Course

/-- `mapIdxFrom f n l` applies `f` to each element of `l` together with its
index, counting from `n`.  It models the JS idioms `array.map((x, i) => ...)`
and loops that carry a running counter (`modulePosition++`). -/
def mapIdxFrom (f : Nat → α → β) : Nat → List α → List β
  | _, [] => []
  | n, a :: as => f n a :: mapIdxFrom f (n + 1) as

/-- JS `Array.prototype.splice` start-index normalisation: a negative start
counts from the end (floored at 0), a non-negative one is capped at the
length. -/
def jsSpliceIdx (start : Int) (len : Nat) : Nat :=
  if start < 0 then ((len : Int) + start).toNat else min start.toNat len

/-- The dnd-kit `arrayMove(array, from, to)`:
`newArray.splice(to < 0 ? newArray.length + to : to, 0, newArray.splice(from, 1)[0])`.
The insertion index is computed against the original length (JS evaluates the
first argument before the inner splice runs), the inner splice removes the
element at the normalised `from` index, and the outer splice re-inserts it at
the normalised insertion index of the shortened array.  The unreachable case
where the inner splice removes nothing (`from` at or past the length of a
non-empty array, or an empty array) is modelled as the identity. -/
def arrayMove (array : List α) (i j : Int) : List α :=
  let n := array.length
  let insertPos : Int := if j < 0 then (n : Int) + j else j
  let fromIdx := jsSpliceIdx i n
  match array.get? fromIdx with
  | none => array
  | some moved =>
      let removed := array.eraseIdx fromIdx
      removed.insertIdx (jsSpliceIdx insertPos removed.length) moved

/-- A lesson row as stored in the `lessons` table and fetched into the UI
(`video_iframe` is a nullable text column). -/
structure Lesson where
  id : Nat
  title : String
  video_iframe : Option String
  position : Nat
  module_id : Nat
deriving Repr, DecidableEq

/-- A module row together with its fetched child lessons. -/
structure Module where
  id : Nat
  name : String
  position : Nat
  lessons : List Lesson
deriving Repr, DecidableEq

/-- dnd-kit drag ids: the source encodes them as the strings
`module-<uuid>` / `lesson-<uuid>`; the prefix test classifying the scope is a
constructor test here. -/
inductive DragId where
  | module (id : Nat)
  | lesson (id : Nat)
deriving Repr, DecidableEq

/-- The test `activeId.startsWith` with the module tag. -/
def isModuleKey : DragId → Bool
  | .module _ => true
  | .lesson _ => false

/-- JS `Array.prototype.findIndex`: the index of the first match, `-1` when
there is none. -/
def findIndexJs (p : α → Bool) (l : List α) : Int :=
  match l.findIdx? p with
  | some k => (k : Int)
  | none => -1

/-- Result of a drag-end handler: the new in-memory sibling list and whether
position writes were dispatched to the store. -/
structure DragResult where
  modules : List Module
  wrote : Bool
deriving Repr, DecidableEq

/-- `handleDragEnd` of the CourseManager page: bail out when there is no drop
target or the item was dropped on itself; when both ids carry the module tag,
find both indices (`findIndex`, `-1` when absent) and `arrayMove`; then update
local state and dispatch `updateModulePositions`. -/
def handleDragEnd (modules : List Module) (active : DragId) (over : Option DragId) :
    DragResult :=
  match over with
  | none => ⟨modules, false⟩
  | some overId =>
      if active = overId then ⟨modules, false⟩
      else if isModuleKey active && isModuleKey overId then
        let oldIndex := findIndexJs (fun m => DragId.module m.id == active) modules
        let newIndex := findIndexJs (fun m => DragId.module m.id == overId) modules
        ⟨arrayMove modules oldIndex newIndex, true⟩
      else ⟨modules, false⟩

/-- Store rows after `updateModulePositions(newModules)`: one update per index
writing `position := i` to the module at index `i`. -/
def updateModulePositions (newModules : List Module) : List Module :=
  mapIdxFrom (fun i m => { m with position := i }) 0 newModules

/-- Store rows after `updateLessonPositions(newLessons)` in `ModuleCard.tsx`. -/
def updateLessonPositions (newLessons : List Lesson) : List Lesson :=
  mapIdxFrom (fun i l => { l with position := i }) 0 newLessons

/-- `addModule`: insert with `position: modules.length`, then append the
created row (with empty lesson list) to local state. -/
def addModule (modules : List Module) (freshId : Nat) (name : String) : List Module :=
  modules ++ [{ id := freshId, name := name, position := modules.length, lessons := [] }]

/-- `addLesson` in `ModuleCard.tsx`: insert with
`position: module.lessons.length`, then append the created row. -/
def addLesson (m : Module) (freshId : Nat) (title iframe : String) : Module :=
  { m with lessons := m.lessons ++
      [{ id := freshId, title := title, video_iframe := some iframe,
         position := m.lessons.length, module_id := m.id }] }

/-- `deleteModule`: delete the row (lessons cascade) and filter local state.
No renumbering of the remaining modules is performed. -/
def deleteModule (modules : List Module) (moduleId : Nat) : List Module :=
  modules.filter (fun m => m.id != moduleId)

/-- `deleteLesson` in `ModuleCard.tsx`: delete the row and filter the sibling
list.  No renumbering of the remaining lessons is performed. -/
def deleteLesson (m : Module) (lessonId : Nat) : Module :=
  { m with lessons := m.lessons.filter (fun l => l.id != lessonId) }

/-- One element of the parsed import JSON array.  The TS interface declares
`module`/`title`/`videoIframe` as `string`, but the values come straight from
`JSON.parse`, so each field may be missing — that is what the validation loop
checks (`!item.module || !item.title` is also true for the empty string). -/
structure RawItem where
  module : Option String
  title : Option String
  videoIframe : Option String
  url : Option String
deriving Repr, DecidableEq

/-- The record passes the `!item.module || !item.title` check of
`validateAndPreview` (a missing field and the empty string are both falsy). -/
def itemValid (it : RawItem) : Bool :=
  !(it.module.getD "" == "") && !(it.title.getD "" == "")

/-- Index reported by the validation loop of `validateAndPreview`: the first
`i` whose record fails the check, `none` when the whole batch is valid
(the UI message displays it 1-based as `Item ${i + 1}`). -/
def firstInvalidIdx : List RawItem → Option Nat
  | [] => none
  | it :: rest =>
      if itemValid it then (firstInvalidIdx rest).map (· + 1) else some 0

/-- The grouping key used by `processImport`: `item.module`.  (`processImport`
only runs on batches that passed validation, where the key is a non-empty
string.) -/
def keyOf (it : RawItem) : String := it.module.getD ""

/-- One step of filling the insertion-ordered `moduleMap` of `processImport`:
`if (!moduleMap.has(item.module)) moduleMap.set(item.module, []);
moduleMap.get(item.module)!.push(item)`.  A JS `Map` preserves first-insertion
order of keys, modelled as an association list. -/
def pushGroup (acc : List (String × List RawItem)) (it : RawItem) :
    List (String × List RawItem) :=
  if acc.any (fun p => p.1 == keyOf it) then
    acc.map (fun p => if p.1 == keyOf it then (p.1, p.2 ++ [it]) else p)
  else acc ++ [(keyOf it, [it])]

/-- The `moduleMap` of `processImport`, in key-first-seen order. -/
def groupByModule (items : List RawItem) : List (String × List RawItem) :=
  items.foldl pushGroup []

/-- A lesson as inserted by the bulk replace engine (before the store assigns
an id): title from the record, video_iframe from the record with empty-string
fallback, position from the index. -/
structure NewLesson where
  title : String
  video_iframe : String
  position : Nat
deriving Repr, DecidableEq

/-- A module as inserted by the bulk replace engine, with its lesson batch. -/
structure NewModule where
  name : String
  position : Nat
  lessons : List NewLesson
deriving Repr, DecidableEq

/-- The lesson batch of one group: title read as-is (after validation it is a
non-empty string), video_iframe with empty-string fallback, position the
index within the group. -/
def buildLessons (items : List RawItem) : List NewLesson :=
  mapIdxFrom
    (fun j it => { title := it.title.getD "", video_iframe := it.videoIframe.getD "",
                   position := j }) 0 items

/-- The entities created by the destructive phase of `processImport`: one
module per group in first-seen order with `position := modulePosition++`, and
its lessons with `position := index` within the group.  Any position data on
the input is never read. -/
def processImport (items : List RawItem) : List NewModule :=
  mapIdxFrom
    (fun i g => { name := g.1, position := i, lessons := buildLessons g.2 })
    0 (groupByModule items)

/-- A created lesson row: the store generates the id (modelled by the index),
and `module_id` links it to its just-created parent. -/
def instantiateLesson (moduleId : Nat) (j : Nat) (nl : NewLesson) : Lesson :=
  { id := j, title := nl.title, video_iframe := some nl.video_iframe,
    position := nl.position, module_id := moduleId }

/-- The store rows created by inserting a batch of new modules: generated
module ids are modelled as `base + index`. -/
def instantiateModules (base : Nat) (ms : List NewModule) : List Module :=
  mapIdxFrom
    (fun i nm =>
      { id := base + i, name := nm.name, position := nm.position,
        lessons := mapIdxFrom (instantiateLesson (base + i)) 0 nm.lessons })
    0 ms

/-- The import flow of the dialog: `processImport` only runs when
`validateAndPreview` accepted the batch (`previewData` set); otherwise the
store is untouched and the first offending index is reported.  On the success
path the delete-all then recreate sequence replaces the store content. -/
def importFlow (store : List Module) (base : Nat) (items : List RawItem) :
    List Module × Except Nat Unit :=
  match firstInvalidIdx items with
  | some i => (store, Except.error i)
  | none => (instantiateModules base (processImport items), Except.ok ())

/-- A lesson inside the snapshot `data` JSON: `{title, video_iframe,
position}` — identity stripped. -/
structure SnapLesson where
  title : String
  video_iframe : Option String
  position : Nat
deriving Repr, DecidableEq

/-- A module inside the snapshot `data` JSON: `{name, position, lessons}`. -/
structure SnapModule where
  name : String
  position : Nat
  lessons : List SnapLesson
deriving Repr, DecidableEq

def snapOfLesson (l : Lesson) : SnapLesson :=
  { title := l.title, video_iframe := l.video_iframe, position := l.position }

def snapOfModule (m : Module) : SnapModule :=
  { name := m.name, position := m.position, lessons := m.lessons.map snapOfLesson }

/-- The `snapshotData.modules` built by `createSnapshot` from the in-memory
module list. -/
def createSnapshotData (modules : List Module) : List SnapModule :=
  modules.map snapOfModule

/-- The store rows created by `restoreSnapshot` after the delete-all: one
module per snapshot entry inserted with `{name: moduleData.name, position:
moduleData.position}`, then its lessons inserted with `{title, video_iframe,
position: lesson.position, module_id}` — the stored position fields are used
verbatim.  Generated ids are modelled as `base + index` / the lesson index. -/
def restoreSnapshot (snap : List SnapModule) (base : Nat) : List Module :=
  mapIdxFrom
    (fun i md =>
      { id := base + i, name := md.name, position := md.position,
        lessons := mapIdxFrom
          (fun j ld =>
            { id := j, title := ld.title, video_iframe := ld.video_iframe,
              position := ld.position, module_id := base + i })
          0 md.lessons })
    0 snap

/-- An import record carrying the same data as one snapshot lesson — the
equivalent input shape for feeding the snapshot content through the JSON
importing path instead of the restore path. -/
def rawOfSnapLesson (moduleName : String) (ld : SnapLesson) : RawItem :=
  { module := some moduleName, title := some ld.title,
    videoIframe := ld.video_iframe, url := none }

/-- A snapshot flattened to the import text shape, module by module. -/
def flattenSnap (snap : List SnapModule) : List RawItem :=
  snap.flatMap (fun md => md.lessons.map (rawOfSnapLesson md.name))

/-- One record of `exportData`: `{module: module.name, title: lesson.title,
videoIframe: lesson.video_iframe, url: null}` — the stored value is passed
through unchanged (a null stays null). -/
def rawOfLesson (moduleName : String) (l : Lesson) : RawItem :=
  { module := some moduleName, title := some l.title,
    videoIframe := l.video_iframe, url := none }

/-- The flat array built by `exportData`: the in-memory modules in array
order, each contributing one record per lesson in array order. -/
def exportRecords (modules : List Module) : List RawItem :=
  modules.flatMap (fun m => m.lessons.map (rawOfLesson m.name))

/-- One element of the read feed response. -/
structure ApiRecord where
  module : String
  title : String
  videoIframe : String
  url : Option String
deriving Repr, DecidableEq

/-- Body of a read feed response: the data array, or the
`{error, message}` object of the catch branch. -/
inductive ApiBody where
  | records (rs : List ApiRecord)
  | failure (error message : String)
deriving Repr, DecidableEq

structure HttpResponse where
  status : Nat
  body : ApiBody
deriving Repr, DecidableEq

/-- The order-by-position comparison on modules. -/
def posLeM (a b : Module) : Prop := a.position ≤ b.position

/-- The order-by-position comparison on the referenced lessons. -/
def posLeL (a b : Lesson) : Prop := a.position ≤ b.position

instance : DecidableRel posLeM := fun a b => Nat.decLe a.position b.position

instance : DecidableRel posLeL := fun a b => Nat.decLe a.position b.position

instance : IsTotal Module posLeM := ⟨fun a b => Nat.le_total a.position b.position⟩

instance : IsTrans Module posLeM := ⟨fun _ _ _ => Nat.le_trans⟩

instance : IsTotal Lesson posLeL := ⟨fun a b => Nat.le_total a.position b.position⟩

instance : IsTrans Lesson posLeL := ⟨fun _ _ _ => Nat.le_trans⟩

/-- The rows fetched by the feed query: modules ordered by position, each
with its lessons ordered by position (a stable sort; with distinct positions
the order is the one the database returns). -/
def sortModules (db : List Module) : List Module :=
  (List.insertionSort posLeM db).map
    (fun m => { m with lessons := List.insertionSort posLeL m.lessons })

/-- The transform of one row: `{module: module.name, title: lesson.title,
videoIframe from the row with empty-string fallback, url: null. -/
def transformRow (m : Module) (l : Lesson) : ApiRecord :=
  { module := m.name, title := l.title, videoIframe := l.video_iframe.getD "",
    url := none }

/-- The `transformedData` array of the feed handler: every fetched module in
order contributes one record per lesson (a module with no lessons contributes
nothing, exactly like the `length > 0` guard). -/
def coursesApiData (db : List Module) : List ApiRecord :=
  (sortModules db).flatMap (fun m => m.lessons.map (transformRow m))

/-- The feed handler: 200 with the transformed array, or — when the fetch
fails — the catch branch: status 500 with an error/message body. -/
def coursesApi (fetched : Except String (List Module)) : HttpResponse :=
  match fetched with
  | .error msg => ⟨500, .failure "Internal server error" msg⟩
  | .ok db => ⟨200, .records (coursesApiData db)⟩

/-- The (module position, lesson position) key of every feed element, in
response order. -/
def apiKeys (db : List Module) : List (Nat × Nat) :=
  (sortModules db).flatMap (fun m => m.lessons.map (fun l => (m.position, l.position)))

/-- Strict lexicographic order on feed keys: ordered by module position then
lesson position. -/
def lexLt (a b : Nat × Nat) : Prop := a.1 < b.1 ∨ (a.1 = b.1 ∧ a.2 < b.2)

instance : DecidableRel lexLt := fun a b => by unfold lexLt; infer_instance

/-- The at-rest position invariant of a sibling scope: the position values
are exactly `0..n-1` — no gaps, no duplicates. -/
def dense (ps : List Nat) : Prop := List.Perm ps (List.range ps.length)

instance (ps : List Nat) : Decidable (dense ps) := by unfold dense; infer_instance

/-- Modelled from the wording of the claim (itself taken from spec section
4.2): remove the entity at the index of movedId, reinsert it at the index of
targetId computed after the removal.  This is NOT the algorithm of the code —
it exists to be compared against `handleDragEnd`/`arrayMove`, which reinsert
at the pre-removal index of the target. -/
def claimedReorder (l : List Module) (movedId targetId : Nat) : List Module :=
  match l.findIdx? (fun m => m.id == movedId) with
  | none => l
  | some i =>
      match l.get? i with
      | none => l
      | some moved =>
          let removed := l.eraseIdx i
          match removed.findIdx? (fun m => m.id == targetId) with
          | none => l
          | some t => removed.insertIdx t moved

instance : DecidableEq (Except Nat Unit) := fun a b =>
  match a, b with
  | .error x, .error y =>
      if h : x = y then .isTrue (by rw [h]) else .isFalse (fun hc => h (by cases hc; rfl))
  | .ok _, .ok _ => .isTrue rfl
  | .error _, .ok _ => .isFalse (fun hc => by cases hc)
  | .ok _, .error _ => .isFalse (fun hc => by cases hc)

/-! Concrete fixtures used by the witnesses and counterexamples below. -/

def exA : Module := ⟨1, "A", 0, []⟩

def exB : Module := ⟨2, "B", 1, []⟩

def exC : Module := ⟨3, "C", 2, []⟩

def exD : Module := ⟨4, "D", 3, []⟩

/-- Four at-rest modules, positions `0..3`. -/
def exABCD : List Module := [exA, exB, exC, exD]

/-- Two at-rest modules, positions `0..1`. -/
def exPair : List Module := [exA, exB]

/-- A snapshot whose stored positions differ from the array ordinals. -/
def cexSnap : List SnapModule := [⟨"M", 5, [⟨"L", some "", 7⟩]⟩]

/-- The flat import batch carrying the same names/titles as `cexSnap`. -/
def cexItems : List RawItem := [⟨some "M", some "L", some "", none⟩]

/-- The grouping example of spec section 8. -/
def imp6 : List RawItem :=
  [⟨some "M1", some "L1", some "", none⟩,
   ⟨some "M2", some "L2", some "", none⟩,
   ⟨some "M1", some "L3", some "", none⟩]

/-- A batch whose second record is missing `title`. -/
def bad3 : List RawItem :=
  [⟨some "M1", some "T", none, none⟩, ⟨some "M1", none, none, none⟩]

/-- A hierarchy with two distinct modules sharing the name M. -/
def dupMs : List Module :=
  [⟨1, "M", 0, [⟨1, "L1", some "", 0, 1⟩]⟩,
   ⟨2, "N", 1, [⟨2, "L2", some "", 0, 2⟩]⟩,
   ⟨3, "M", 2, [⟨3, "L3", some "", 0, 3⟩]⟩]

/-- A well-formed hierarchy (distinct names, non-empty names/titles, non-null
video markup), including a module with no lessons. -/
def okMs : List Module :=
  [⟨1, "M", 0, [⟨1, "L1", some "v", 0, 1⟩, ⟨2, "L2", some "", 1, 1⟩]⟩,
   ⟨2, "N", 1, []⟩,
   ⟨3, "P", 2, [⟨3, "L3", some "w", 0, 3⟩]⟩]

/-- A stored hierarchy for the feed, deliberately fetched out of order and
with one absent video value. -/
def apiDb : List Module :=
  [⟨1, "B", 1, [⟨1, "L2", none, 0, 1⟩]⟩,
   ⟨2, "A", 0, [⟨2, "L1", some "v", 1, 2⟩, ⟨3, "L0", some "", 0, 2⟩]⟩]

/-- A snapshot whose stored positions are exactly the array ordinals. -/
def okSnap : List SnapModule :=
  [⟨"M", 0, [⟨"L1", some "v", 0⟩, ⟨"L2", some "", 1⟩]⟩,
   ⟨"N", 1, [⟨"L3", some "", 0⟩]⟩]

/-! General lemmas about the helper functions. -/

theorem length_mapIdxFrom (f : Nat → α → β) :
    ∀ (n : Nat) (l : List α), (mapIdxFrom f n l).length = l.length
  | _, [] => rfl
  | n, _ :: as => by simp [mapIdxFrom, length_mapIdxFrom f (n + 1) as]

theorem map_mapIdxFrom (f : Nat → α → β) (g : β → γ) :
    ∀ (n : Nat) (l : List α),
      (mapIdxFrom f n l).map g = mapIdxFrom (fun i a => g (f i a)) n l
  | _, [] => rfl
  | n, _ :: as => by simp [mapIdxFrom, map_mapIdxFrom f g (n + 1) as]

theorem mapIdxFrom_map (f : Nat → β → γ) (g : α → β) :
    ∀ (n : Nat) (l : List α),
      mapIdxFrom f n (l.map g) = mapIdxFrom (fun i a => f i (g a)) n l
  | _, [] => rfl
  | n, _ :: as => by simp [mapIdxFrom, mapIdxFrom_map f g (n + 1) as]

theorem mapIdxFrom_mapIdxFrom (f : Nat → β → γ) (g : Nat → α → β) :
    ∀ (n : Nat) (l : List α),
      mapIdxFrom f n (mapIdxFrom g n l) = mapIdxFrom (fun i a => f i (g i a)) n l
  | _, [] => rfl
  | n, _ :: as => by simp [mapIdxFrom, mapIdxFrom_mapIdxFrom f g (n + 1) as]

theorem mapIdxFrom_idx (n : Nat) :
    ∀ (l : List α), mapIdxFrom (fun i _ => i) n l = List.range' n l.length := by
  intro l
  induction l generalizing n with
  | nil => rfl
  | cons a as ih => simp [mapIdxFrom, List.range'_succ, ih]

theorem get?_mapIdxFrom (f : Nat → α → β) :
    ∀ (n : Nat) (l : List α) (k : Nat),
      (mapIdxFrom f n l).get? k = (l.get? k).map (f (n + k))
  | _, [], k => by cases k <;> rfl
  | n, a :: as, 0 => rfl
  | n, a :: as, k + 1 => by
      simpa [mapIdxFrom, Nat.add_assoc, Nat.add_comm 1 k]
        using get?_mapIdxFrom f (n + 1) as k

theorem mem_mapIdxFrom {f : Nat → α → β} :
    ∀ {n : Nat} {l : List α} {b : β}, b ∈ mapIdxFrom f n l → ∃ i a, a ∈ l ∧ b = f i a := by
  intro n l
  induction l generalizing n with
  | nil => intro b h; cases h
  | cons a as ih =>
      intro b h
      rcases h with _ | ⟨_, h⟩
      · exact ⟨n, a, List.mem_cons_self a as, rfl⟩
      · obtain ⟨i, x, hx, hb⟩ := ih h
        exact ⟨i, x, List.mem_cons_of_mem a hx, hb⟩

theorem mapIdxFrom_congr {f g : Nat → α → β} :
    ∀ (n : Nat) (l : List α),
      (∀ i a, l.get? i = some a → f (n + i) a = g (n + i) a) →
      mapIdxFrom f n l = mapIdxFrom g n l := by
  intro n l
  induction l generalizing n with
  | nil => intro _; rfl
  | cons a as ih =>
      intro h
      have h0 := h 0 a rfl
      simp only [Nat.add_zero] at h0
      simp only [mapIdxFrom, h0]
      refine congrArg _ (ih (n + 1) ?_)
      intro i x hx
      have := h (i + 1) x hx
      simpa [Nat.add_assoc, Nat.add_comm 1 i] using this

theorem jsSpliceIdx_le (s : Int) (len : Nat) : jsSpliceIdx s len ≤ len := by
  unfold jsSpliceIdx
  split <;> omega

theorem jsSpliceIdx_natCast (i len : Nat) (h : i ≤ len) :
    jsSpliceIdx (i : Int) len = i := by
  unfold jsSpliceIdx
  split
  · omega
  · simp [Int.toNat_natCast, Nat.min_eq_left h]

theorem eraseIdx_map_comm (f : α → β) :
    ∀ (l : List α) (n : Nat), (l.map f).eraseIdx n = (l.eraseIdx n).map f := by
  intro l
  induction l with
  | nil => intro n; rfl
  | cons a as ih =>
      intro n
      cases n with
      | zero => rfl
      | succ n => simp [List.eraseIdx, ih n]

theorem insertIdx_map_comm (f : α → β) (a : α) :
    ∀ (n : Nat) (l : List α),
      (List.insertIdx n a l).map f = List.insertIdx n (f a) (l.map f) := by
  intro n
  induction n with
  | zero => intro l; rfl
  | succ n ih =>
      intro l
      cases l with
      | nil => rfl
      | cons b bs => simp [List.insertIdx_succ_cons, ih bs]

/-- A list decomposes around any index that `get?` hits. -/
theorem split_at_get? (l : List α) (k : Nat) (moved : α) (hm : l.get? k = some moved) :
    l = l.take k ++ moved :: l.drop (k + 1) := by
  rw [List.get?_eq_getElem?] at hm
  obtain ⟨hk, hget⟩ := List.getElem?_eq_some.mp hm
  conv_lhs => rw [← List.take_append_drop k l]
  congr 1
  rw [List.drop_eq_getElem_cons hk, hget]

/-- Removing the element an occupied index holds and putting it back in front
is a permutation. -/
theorem cons_eraseIdx_perm (l : List α) (k : Nat) (moved : α)
    (hm : l.get? k = some moved) :
    List.Perm (moved :: l.eraseIdx k) l := by
  conv_rhs => rw [split_at_get? l k moved hm]
  rw [List.eraseIdx_eq_take_drop_succ]
  exact List.perm_middle.symm

/-- The splice pair of `arrayMove` in its in-range normal form: remove at the
moved index, re-insert at the index the target held in the original list. -/
theorem arrayMove_eq_eraseIdx_insertIdx (l : List α) (i j : Nat) (moved : α)
    (hm : l.get? i = some moved) (hj : j < l.length) :
    arrayMove l (i : Int) (j : Int) = (l.eraseIdx i).insertIdx j moved := by
  have hi : i < l.length := by
    rw [List.get?_eq_getElem?] at hm
    exact (List.getElem?_eq_some.mp hm).1
  have hlen : (l.eraseIdx i).length = l.length - 1 := by
    rw [List.length_eraseIdx]
    simp [hi]
  simp only [arrayMove]
  rw [jsSpliceIdx_natCast i l.length (Nat.le_of_lt hi), hm]
  have hnotneg : ¬ ((j : Int) < 0) := by omega
  simp only [if_neg hnotneg]
  rw [jsSpliceIdx_natCast j (l.eraseIdx i).length (by omega)]

theorem map_arrayMove (f : α → β) (l : List α) (i j : Int) :
    (arrayMove l i j).map f = arrayMove (l.map f) i j := by
  simp only [arrayMove, List.length_map, List.get?_map]
  cases h : l.get? (jsSpliceIdx i l.length) with
  | none => simp [h]
  | some moved =>
      simp [h, eraseIdx_map_comm, insertIdx_map_comm]

theorem arrayMove_perm (l : List α) (i j : Int) :
    List.Perm (arrayMove l i j) l := by
  simp only [arrayMove]
  cases h : l.get? (jsSpliceIdx i l.length) with
  | none => exact List.Perm.refl l
  | some moved =>
      exact (List.perm_insertIdx moved _ (jsSpliceIdx_le _ _)).trans
        (cons_eraseIdx_perm l _ moved h)

theorem filter_insertIdx (p : α → Bool) (a : α) (hpa : p a = false) :
    ∀ (n : Nat) (l : List α), n ≤ l.length →
      (List.insertIdx n a l).filter p = l.filter p := by
  intro n
  induction n with
  | zero => intro l _; simp [List.filter_cons, hpa]
  | succ n ih =>
      intro l hl
      cases l with
      | nil => simp at hl
      | cons b bs =>
          rw [List.insertIdx_succ_cons]
          simp only [List.filter_cons]
          rw [ih bs (by simpa using hl)]

theorem filter_eraseIdx_of_get? (p : α → Bool) (l : List α) (k : Nat) (moved : α)
    (hm : l.get? k = some moved) (hpa : p moved = false) :
    (l.eraseIdx k).filter p = l.filter p := by
  conv_rhs => rw [split_at_get? l k moved hm]
  rw [List.eraseIdx_eq_take_drop_succ, List.filter_append, List.filter_append,
    List.filter_cons]
  simp [hpa]

/-! Density of position sequences. -/

theorem dense_of_eq_range {ps : List Nat} (h : ps = List.range ps.length) :
    dense ps := by
  rw [dense, h]
  simp

theorem dense_append_length {ps : List Nat} (h : dense ps) :
    dense (ps ++ [ps.length]) := by
  rw [dense] at h ⊢
  simp only [List.length_append, List.length_cons, List.length_nil, Nat.zero_add]
  rw [List.range_succ]
  exact h.append_right _

theorem updateModulePositions_posList (l : List Module) :
    (updateModulePositions l).map (·.position) = List.range l.length := by
  unfold updateModulePositions
  rw [map_mapIdxFrom]
  have h : (fun (i : Nat) (m : Module) => ({ m with position := i } : Module).position)
      = fun i _ => i := rfl
  rw [h, mapIdxFrom_idx, ← List.range_eq_range']

theorem updateLessonPositions_posList (ls : List Lesson) :
    (updateLessonPositions ls).map (·.position) = List.range ls.length := by
  unfold updateLessonPositions
  rw [map_mapIdxFrom]
  have h : (fun (i : Nat) (l : Lesson) => ({ l with position := i } : Lesson).position)
      = fun i _ => i := rfl
  rw [h, mapIdxFrom_idx, ← List.range_eq_range']

theorem buildLessons_posList (items : List RawItem) :
    (buildLessons items).map (·.position) = List.range items.length := by
  unfold buildLessons
  rw [map_mapIdxFrom]
  have h : (fun (j : Nat) (it : RawItem) =>
      ({ title := it.title.getD "", video_iframe := it.videoIframe.getD "",
         position := j } : NewLesson).position) = fun i _ => i := rfl
  rw [h, mapIdxFrom_idx, ← List.range_eq_range']

theorem processImport_posList (items : List RawItem) :
    (processImport items).map (·.position) = List.range (groupByModule items).length := by
  unfold processImport
  rw [map_mapIdxFrom]
  have h : (fun (i : Nat) (g : String × List RawItem) =>
      ({ name := g.1, position := i, lessons := buildLessons g.2 } : NewModule).position)
      = fun i _ => i := rfl
  rw [h, mapIdxFrom_idx, ← List.range_eq_range']

theorem processImport_lessons_posList {items : List RawItem} :
    ∀ nm ∈ processImport items,
      nm.lessons.map (·.position) = List.range nm.lessons.length := by
  intro nm hnm
  obtain ⟨i, g, _, rfl⟩ := mem_mapIdxFrom hnm
  show (buildLessons g.2).map (·.position) = List.range (buildLessons g.2).length
  rw [buildLessons_posList]
  unfold buildLessons
  rw [length_mapIdxFrom]

/-- C1 (counterexample): from the at-rest state with two modules at positions
`0,1`, `deleteModule` of the first leaves the sibling positions `[1]` — not
`0..n-1`: the code deletes and filters but never renumbers. -/
theorem deleteModule_breaks_density :
    dense (exPair.map (·.position)) ∧
    ¬ dense ((deleteModule exPair 1).map (·.position)) := by decide

/-- C1 (amended): sibling positions are exactly `0..n-1` after an add from a
state satisfying the invariant, after the position rewrite completing a
reorder, and after the bulk replace; a delete performs no renumbering — the
remaining siblings keep their old (still pairwise-distinct) positions, which
may now have gaps. -/
theorem positions_dense_amended :
    (∀ (ms : List Module) (freshId : Nat) (name : String),
        dense (ms.map (·.position)) →
        dense ((addModule ms freshId name).map (·.position))) ∧
    (∀ (m : Module) (freshId : Nat) (t v : String),
        dense (m.lessons.map (·.position)) →
        dense ((addLesson m freshId t v).lessons.map (·.position))) ∧
    (∀ l : List Module, dense ((updateModulePositions l).map (·.position))) ∧
    (∀ ls : List Lesson, dense ((updateLessonPositions ls).map (·.position))) ∧
    (∀ items : List RawItem,
        dense ((processImport items).map (·.position)) ∧
        ∀ nm ∈ processImport items, dense (nm.lessons.map (·.position))) ∧
    (∀ (ms : List Module) (mid : Nat),
        (ms.map (·.position)).Nodup →
        ((deleteModule ms mid).map (·.position)).Nodup) ∧
    (∀ (m : Module) (lid : Nat),
        (m.lessons.map (·.position)).Nodup →
        ((deleteLesson m lid).lessons.map (·.position)).Nodup) := by
  refine ⟨?add, ?addL, ?reorder, ?reorderL, ?replace, ?del, ?delL⟩
  case add =>
    intro ms freshId name h
    have heq : (addModule ms freshId name).map (·.position)
        = ms.map (·.position) ++ [ms.length] := by
      simp [addModule]
    rw [heq]
    have hl : ms.length = (ms.map (·.position)).length := (List.length_map ms _).symm
    rw [hl]
    exact dense_append_length h
  case addL =>
    intro m freshId t v h
    have heq : (addLesson m freshId t v).lessons.map (·.position)
        = m.lessons.map (·.position) ++ [m.lessons.length] := by
      simp [addLesson]
    rw [heq]
    have hl : m.lessons.length = (m.lessons.map (·.position)).length :=
      (List.length_map m.lessons _).symm
    rw [hl]
    exact dense_append_length h
  case reorder =>
    intro l
    apply dense_of_eq_range
    rw [updateModulePositions_posList]
    congr 1
    simp
  case reorderL =>
    intro ls
    apply dense_of_eq_range
    rw [updateLessonPositions_posList]
    congr 1
    simp
  case replace =>
    intro items
    constructor
    · apply dense_of_eq_range
      rw [processImport_posList]
      congr 1
      simp [processImport, length_mapIdxFrom]
    · intro nm hnm
      apply dense_of_eq_range
      rw [processImport_lessons_posList nm hnm]
      congr 1
      simp
  case del =>
    intro ms mid h
    exact h.sublist ((List.filter_sublist ms).map (·.position))
  case delL =>
    intro m lid h
    exact h.sublist ((List.filter_sublist m.lessons).map (·.position))

/-- Witness for the amended C1 at concrete inputs. -/
theorem positions_dense_amended_witness :
    dense ((addModule exPair 9 "Z").map (·.position)) ∧
    dense ((addLesson exA 5 "T" "").lessons.map (·.position)) ∧
    dense ((updateModulePositions [exB, exA]).map (·.position)) ∧
    dense ((processImport imp6).map (·.position)) ∧
    ((deleteModule exPair 1).map (·.position)).Nodup :=
  ⟨positions_dense_amended.1 exPair 9 "Z" (by decide),
   positions_dense_amended.2.1 exA 5 "T" "" (by decide),
   positions_dense_amended.2.2.1 [exB, exA],
   (positions_dense_amended.2.2.2.2.1 imp6).1,
   positions_dense_amended.2.2.2.2.2.1 exPair 1 (by decide)⟩

/-- C4 (counterexample): on `[A,B,C,D]`, moving A onto C, the code produces
`[B,C,A,D]` — the example given by the claim itself — but the algorithm the
claim describes (reinsert at the post-removal index of the target) produces
`[B,A,C,D]`.  The two halves of the
claim contradict each other, so the claim as stated is false of the code. -/
theorem reorder_not_post_removal_splice :
    (handleDragEnd exABCD (DragId.module 1) (some (DragId.module 3))).modules
      = [exB, exC, exA, exD] ∧
    claimedReorder exABCD 1 3 = [exB, exA, exC, exD] ∧
    ([exB, exC, exA, exD] : List Module) ≠ [exB, exA, exC, exD] := by decide

/-- C4 (amended): for in-range indices the splice removes the entity at the
moved index and reinserts it at the index the target held in the original
(pre-removal) list; it is a single-element move, stable for all other
elements, and on `[A,B,C,D]` moving A onto C yields `[B,C,A,D]`. -/
theorem reorder_splice_amended :
    (∀ (l : List Module) (i j : Nat) (moved : Module),
        l.get? i = some moved → j < l.length →
        arrayMove l (i : Int) (j : Int) = (l.eraseIdx i).insertIdx j moved) ∧
    (∀ (l : List Module) (i j : Nat) (moved : Module),
        l.get? i = some moved → j < l.length →
        (arrayMove l (i : Int) (j : Int)).filter (fun m => m.id != moved.id)
          = l.filter (fun m => m.id != moved.id)) ∧
    (handleDragEnd exABCD (DragId.module 1) (some (DragId.module 3))).modules
      = [exB, exC, exA, exD] := by
  refine ⟨arrayMove_eq_eraseIdx_insertIdx, ?stable, by decide⟩
  case stable =>
    intro l i j moved hm hj
    have hi : i < l.length := by
      rw [List.get?_eq_getElem?] at hm
      exact (List.getElem?_eq_some.mp hm).1
    have hlen : (l.eraseIdx i).length = l.length - 1 := by
      rw [List.length_eraseIdx]
      simp [hi]
    have hpa : (fun m : Module => m.id != moved.id) moved = false := by simp
    rw [arrayMove_eq_eraseIdx_insertIdx l i j moved hm hj,
      filter_insertIdx (fun m : Module => m.id != moved.id) moved hpa j
        (l.eraseIdx i) (by omega),
      filter_eraseIdx_of_get? (fun m : Module => m.id != moved.id) l i moved hm hpa]

/-- Witness for the amended C4 at a concrete input. -/
theorem reorder_splice_amended_witness :
    arrayMove exABCD ((0 : Nat) : Int) ((2 : Nat) : Int)
      = (exABCD.eraseIdx 0).insertIdx 2 exA ∧
    (arrayMove exABCD ((0 : Nat) : Int) ((2 : Nat) : Int)).filter
        (fun m => m.id != exA.id)
      = exABCD.filter (fun m => m.id != exA.id) :=
  ⟨reorder_splice_amended.1 exABCD 0 2 exA (by decide) (by decide),
   reorder_splice_amended.2.1 exABCD 0 2 exA (by decide) (by decide)⟩

/-- C5 (counterexample): with modules `[A,B]`, a drag whose active id
(`module-99`) is absent from the list but whose target (`module-1`) is present
is not a no-op: `findIndex` yields `-1`, which the splice treats as the last
element, so the list becomes `[B,A]` — and position writes are still
dispatched. -/
theorem reorder_absent_id_not_noop :
    handleDragEnd exPair (DragId.module 99) (some (DragId.module 1))
      = ⟨[exB, exA], true⟩ ∧
    ([exB, exA] : List Module) ≠ exPair := by decide

/-- C5 (amended): dropping an item on itself, or with no drop target, is a
no-op with no persistence write; but an id bearing the module tag that is
absent from the list makes `findIndex` return `-1`, which `arrayMove` treats
as the last element — the list may change and position writes are still
issued. -/
theorem reorder_noop_amended :
    (∀ (modules : List Module) (x : DragId),
        handleDragEnd modules x (some x) = ⟨modules, false⟩) ∧
    (∀ (modules : List Module) (x : DragId),
        handleDragEnd modules x none = ⟨modules, false⟩) ∧
    handleDragEnd exPair (DragId.module 99) (some (DragId.module 1))
      = ⟨[exB, exA], true⟩ := by
  refine ⟨?self, fun _ _ => rfl, by decide⟩
  case self => intro modules x; simp [handleDragEnd]

/-- C6: the grouping example — the import of
`[{M1,L1},{M2,L2},{M1,L3}]` creates modules in first-seen order M1, M2 at
positions 0, 1, with the lessons L1, L3 of M1 at positions 0, 1 and lesson L2 of M2
at position 0. -/
theorem import_first_seen_grouping :
    processImport imp6 =
      [{ name := "M1", position := 0,
         lessons := [{ title := "L1", video_iframe := "", position := 0 },
                     { title := "L3", video_iframe := "", position := 1 }] },
       { name := "M2", position := 1,
         lessons := [{ title := "L2", video_iframe := "", position := 0 }] }] := by
  decide

theorem firstInvalidIdx_spec :
    ∀ (items : List RawItem) (i : Nat), firstInvalidIdx items = some i →
      (∃ it, items.get? i = some it ∧ itemValid it = false) ∧
      (∀ j it, j < i → items.get? j = some it → itemValid it = true) := by
  intro items
  induction items with
  | nil => intro i h; simp [firstInvalidIdx] at h
  | cons it rest ih =>
      intro i h
      by_cases hv : itemValid it
      · rw [firstInvalidIdx, if_pos hv] at h
        obtain ⟨i0, hrest, rfl⟩ := Option.map_eq_some'.mp h
        obtain ⟨⟨bad, hbad, hbadv⟩, hbefore⟩ := ih i0 hrest
        refine ⟨⟨bad, hbad, hbadv⟩, ?_⟩
        intro j x hj hx
        cases j with
        | zero =>
            simp only [List.get?] at hx
            cases hx
            exact hv
        | succ j =>
            exact hbefore j x (by omega) hx
      · rw [firstInvalidIdx, if_neg hv] at h
        cases h
        refine ⟨⟨it, rfl, by simpa using hv⟩, ?_⟩
        intro j x hj _
        omega

/-- C3: when any record of the batch is missing (or has an empty) module or
title, the whole import is rejected: the store is returned untouched, the
reported index is the first offending one — every earlier record passes the
check. -/
theorem import_validation_rejects_batch :
    ∀ (store : List Module) (base : Nat) (items : List RawItem) (i : Nat),
      firstInvalidIdx items = some i →
      importFlow store base items = (store, Except.error i) ∧
      (∃ it, items.get? i = some it ∧ itemValid it = false) ∧
      (∀ j it, j < i → items.get? j = some it → itemValid it = true) := by
  intro store base items i h
  refine ⟨?flow, (firstInvalidIdx_spec items i h).1, (firstInvalidIdx_spec items i h).2⟩
  case flow => unfold importFlow; rw [h]

/-- Witness for C3: a batch whose second record has no title is rejected with
index 1 and the store is untouched. -/
theorem import_validation_rejects_batch_witness :
    importFlow okMs 0 bad3 = (okMs, Except.error 1) ∧
    (∃ it, bad3.get? 1 = some it ∧ itemValid it = false) ∧
    (∀ j it, j < 1 → bad3.get? j = some it → itemValid it = true) :=
  import_validation_rejects_batch okMs 0 bad3 1 (by decide)

theorem mapIdxFrom_id : ∀ (n : Nat) (l : List α), mapIdxFrom (fun _ a => a) n l = l
  | _, [] => rfl
  | n, _ :: as => by simp [mapIdxFrom, mapIdxFrom_id (n + 1) as]

/-- Capturing the rows just created by a restore gives back exactly the
snapshot data: the restore writes name/position/title/markup verbatim and only
the generated identities differ. -/
theorem restore_createSnapshotData (s : List SnapModule) (base : Nat) :
    createSnapshotData (restoreSnapshot s base) = s := by
  unfold createSnapshotData restoreSnapshot
  rw [map_mapIdxFrom]
  have h : (fun (i : Nat) (md : SnapModule) => snapOfModule
      { id := base + i, name := md.name, position := md.position,
        lessons := mapIdxFrom
          (fun j ld =>
            { id := j, title := ld.title, video_iframe := ld.video_iframe,
              position := ld.position, module_id := base + i })
          0 md.lessons }) = fun _ md => md := by
    funext i md
    unfold snapOfModule
    simp only []
    rw [map_mapIdxFrom]
    have h2 : (fun (j : Nat) (ld : SnapLesson) => snapOfLesson
        { id := j, title := ld.title, video_iframe := ld.video_iframe,
          position := ld.position, module_id := base + i }) = fun _ ld => ld := rfl
    rw [h2, mapIdxFrom_id]
  rw [h, mapIdxFrom_id]

/-- C7: capture → restore round-trip — restoring a snapshot of a hierarchy
and capturing again reproduces the identical names, titles, video markup and
position values (only entity identities can differ). -/
theorem snapshot_roundtrip (ms : List Module) (base : Nat) :
    createSnapshotData (restoreSnapshot (createSnapshotData ms) base)
      = createSnapshotData ms :=
  restore_createSnapshotData (createSnapshotData ms) base

/-- C10: the in-memory reorder only permutes the sibling array — snapshot
serialisation commutes with the move (each item keeps its stored position
field) and the moved list is a permutation of the original.  Concretely,
after reordering `[A,B]` to `[B,A]`, a snapshot captured before a refetch
serialises the pre-reorder positions `[1,0]`, while the store rewritten by
`updateModulePositions` holds `[0,1]`. -/
theorem reorder_frame_snapshot :
    (∀ (ms : List Module) (i j : Int),
        createSnapshotData (arrayMove ms i j)
          = arrayMove (createSnapshotData ms) i j) ∧
    (∀ (ms : List Module) (i j : Int), List.Perm (arrayMove ms i j) ms) ∧
    (createSnapshotData (handleDragEnd exPair (DragId.module 1)
        (some (DragId.module 2))).modules).map (·.position) = [1, 0] ∧
    (updateModulePositions (handleDragEnd exPair (DragId.module 1)
        (some (DragId.module 2))).modules).map (·.position) = [0, 1] := by
  refine ⟨?commute, arrayMove_perm, by decide, by decide⟩
  case commute => intro ms i j; exact map_arrayMove snapOfModule ms i j

/-! The grouping of `processImport` on a concatenation of single-key runs. -/

theorem mapIdxFrom_const (f : α → β) :
    ∀ (n : Nat) (l : List α), mapIdxFrom (fun _ a => f a) n l = l.map f
  | _, [] => rfl
  | n, _ :: as => by simp [mapIdxFrom, mapIdxFrom_const f (n + 1) as]

theorem foldl_pushGroup_run :
    ∀ (items : List RawItem) (k : String) (pre : List RawItem),
      (∀ it ∈ items, keyOf it = k) →
      items.foldl pushGroup [(k, pre)] = [(k, pre ++ items)] := by
  intro items
  induction items with
  | nil => intro k pre _; simp
  | cons it rest ih =>
      intro k pre h
      have hk : keyOf it = k := h it (List.mem_cons_self it rest)
      have hstep : pushGroup [(k, pre)] it = [(k, pre ++ [it])] := by
        simp [pushGroup, hk]
      rw [List.foldl_cons, hstep,
        ih k (pre ++ [it]) (fun x hx => h x (List.mem_cons_of_mem it hx))]
      simp

theorem foldl_pushGroup_skip :
    ∀ (rest : List RawItem) (accL accR : List (String × List RawItem)),
      (∀ it ∈ rest, ∀ g ∈ accL, g.1 ≠ keyOf it) →
      rest.foldl pushGroup (accL ++ accR) = accL ++ rest.foldl pushGroup accR := by
  intro rest
  induction rest with
  | nil => intro accL accR _; rfl
  | cons it rest ih =>
      intro accL accR h
      have hL : accL.any (fun p => p.1 == keyOf it) = false := by
        rw [List.any_eq_false]
        intro g hg
        simpa using h it (List.mem_cons_self it rest) g hg
      have hstep : pushGroup (accL ++ accR) it = accL ++ pushGroup accR it := by
        unfold pushGroup
        rw [List.any_append, hL, Bool.false_or]
        by_cases hR : accR.any (fun p => p.1 == keyOf it)
        · rw [if_pos hR, if_pos hR, List.map_append]
          congr 1
          conv_rhs => rw [← List.map_id accL]
          apply List.map_congr_left
          intro g hg
          have : (g.1 == keyOf it) = false :=
            beq_eq_false_iff_ne.mpr (h it (List.mem_cons_self it rest) g hg)
          simp [this]
        · rw [if_neg hR, if_neg hR, List.append_assoc]
      rw [List.foldl_cons, List.foldl_cons, hstep]
      exact ih accL (pushGroup accR it)
        (fun x hx g hg => h x (List.mem_cons_of_mem it hx) g hg)

/-- Grouping a concatenation of non-empty runs with pairwise-distinct keys
recovers exactly those runs, in order. -/
theorem groupByModule_flatten :
    ∀ (gs : List (String × List RawItem)),
      (gs.map Prod.fst).Nodup →
      (∀ g ∈ gs, g.2 ≠ []) →
      (∀ g ∈ gs, ∀ it ∈ g.2, keyOf it = g.1) →
      groupByModule (gs.flatMap (fun g => g.2)) = gs := by
  intro gs
  induction gs with
  | nil => intro _ _ _; rfl
  | cons g gs ih =>
      intro hnd hne hco
      obtain ⟨k, items⟩ := g
      have hitems : ∀ it ∈ items, keyOf it = k := by
        intro it hit
        exact hco (k, items) (List.mem_cons_self _ _) it hit
      obtain ⟨it0, more, rfl⟩ :=
        List.exists_cons_of_ne_nil (hne (k, items) (List.mem_cons_self _ _))
      show groupByModule ((it0 :: more) ++ gs.flatMap (fun g => g.2)) = _
      unfold groupByModule
      rw [List.foldl_append, List.foldl_cons]
      have h0 : pushGroup [] it0 = [(k, [it0])] := by
        have : keyOf it0 = k := hitems it0 (List.mem_cons_self _ _)
        simp [pushGroup, this]
      rw [h0, foldl_pushGroup_run more k [it0]
        (fun x hx => hitems x (List.mem_cons_of_mem it0 hx))]
      have hknot : k ∉ gs.map Prod.fst := by
        have := hnd
        rw [List.map_cons, List.nodup_cons] at this
        exact this.1
      have hskip := foldl_pushGroup_skip (gs.flatMap (fun g => g.2))
        [(k, [it0] ++ more)] [] ?keys
      case keys =>
        intro it hit g hg
        rcases List.mem_singleton.mp hg with rfl
        show k ≠ keyOf it
        obtain ⟨g', hg', hitg'⟩ := List.mem_flatMap.mp hit
        have hkey : keyOf it = g'.1 := hco g' (List.mem_cons_of_mem _ hg') it hitg'
        intro hkeq
        apply hknot
        rw [hkeq, hkey]
        exact List.mem_map_of_mem Prod.fst hg'
      rw [List.append_nil] at hskip
      rw [hskip]
      have hIH : (gs.flatMap (fun g => g.2)).foldl pushGroup [] = gs := by
        have hnd' : (gs.map Prod.fst).Nodup := by
          rw [List.map_cons, List.nodup_cons] at hnd
          exact hnd.2
        exact ih hnd' (fun g hg => hne g (List.mem_cons_of_mem _ hg))
          (fun g hg => hco g (List.mem_cons_of_mem _ hg))
      rw [hIH]
      rfl

/-- C2 (counterexample): the two bulk-replace paths do not assign identical
positions, and the restore path does not re-derive them from array order:
restoring a snapshot whose single module carries stored position 5 (lesson
position 7) creates rows with positions 5 and 7, while the import path on the
equivalent flat shape (`flattenSnap cexSnap = cexItems`) assigns 0 and 0. -/
theorem restore_trusts_snapshot_positions :
    flattenSnap cexSnap = cexItems ∧
    (restoreSnapshot cexSnap 0).map (·.position) = [5] ∧
    (restoreSnapshot cexSnap 0).map (fun m => m.lessons.map (·.position)) = [[7]] ∧
    (processImport cexItems).map (·.position) = [0] ∧
    (processImport cexItems).map (fun nm => nm.lessons.map (·.position)) = [[0]] ∧
    ([5] : List Nat) ≠ [0] := by decide

/-- C2 (amended): the import path always re-derives positions from array
order — module position is the ordinal of the first-seen module name, lesson
position the ordinal within its group, whatever the input carries; the
restore path instead copies the stored position fields of the snapshot
verbatim.  The two paths produce identical assignments when the stored
positions already equal those ordinals, its module names are distinct, and
every snapshot module has at least one lesson. -/
theorem replace_positions_amended :
    (∀ items : List RawItem,
        (processImport items).map (·.position)
          = List.range (processImport items).length ∧
        ∀ nm ∈ processImport items,
          nm.lessons.map (·.position) = List.range nm.lessons.length) ∧
    (∀ (snap : List SnapModule) (base : Nat),
        (snap.map (·.name)).Nodup →
        (∀ md ∈ snap, md.lessons ≠ []) →
        snap.map (·.position) = List.range snap.length →
        (∀ md ∈ snap, md.lessons.map (·.position) = List.range md.lessons.length) →
        (restoreSnapshot snap base).map
            (fun m => (m.name, m.position, m.lessons.map (·.position)))
          = (processImport (flattenSnap snap)).map
            (fun nm => (nm.name, nm.position, nm.lessons.map (·.position)))) := by
  constructor
  · intro items
    refine ⟨?pos, processImport_lessons_posList⟩
    rw [processImport_posList]
    congr 1
    simp [processImport, length_mapIdxFrom]
  · intro snap base hnd hne hpos hlpos
    have hflat : flattenSnap snap
        = (snap.map (fun md => (md.name, md.lessons.map (rawOfSnapLesson md.name)))).flatMap
            (fun g => g.2) := by
      rw [List.flatMap_map]
      rfl
    have hgroup : groupByModule (flattenSnap snap)
        = snap.map (fun md => (md.name, md.lessons.map (rawOfSnapLesson md.name))) := by
      rw [hflat]
      apply groupByModule_flatten
      · rw [List.map_map]
        exact hnd
      · intro g hg
        obtain ⟨md, hmd, rfl⟩ := List.mem_map.mp hg
        simp only [ne_eq, List.map_eq_nil_iff]
        exact hne md hmd
      · intro g hg it hit
        obtain ⟨md, hmd, rfl⟩ := List.mem_map.mp hg
        obtain ⟨ld, _, rfl⟩ := List.mem_map.mp hit
        rfl
    -- both sides become `mapIdxFrom` over `snap`; compare entrywise
    unfold restoreSnapshot processImport
    rw [hgroup, map_mapIdxFrom, mapIdxFrom_map, map_mapIdxFrom]
    apply mapIdxFrom_congr
    intro i md hget
    have hmem : md ∈ snap := List.get?_mem hget
    have hposi : md.position = i := by
      have h1 : (snap.map (·.position)).get? i = some md.position := by
        rw [List.get?_map, hget]
        rfl
      rw [hpos] at h1
      have hilt : i < snap.length := by
        have := List.get?_eq_some.mp hget
        obtain ⟨hlt, _⟩ := this
        exact hlt
      rw [List.get?_range (by simpa using hilt)] at h1
      exact (Option.some.injEq _ _ ▸ h1).symm
    simp only [Nat.zero_add]
    refine Prod.ext rfl (Prod.ext ?_ ?_)
    · exact hposi
    · rw [buildLessons_posList, List.length_map, ← hlpos md hmem, map_mapIdxFrom]
      have h2 : (fun (j : Nat) (ld : SnapLesson) =>
          ({ id := j, title := ld.title, video_iframe := ld.video_iframe,
             position := ld.position, module_id := base + i } : Lesson).position)
          = fun _ ld => ld.position := rfl
      rw [h2, mapIdxFrom_const]

/-- Witness for the amended C2 at a concrete ordinal-positioned snapshot. -/
theorem replace_positions_amended_witness :
    (processImport (flattenSnap okSnap)).map (·.position)
      = List.range (processImport (flattenSnap okSnap)).length ∧
    (restoreSnapshot okSnap 7).map
        (fun m => (m.name, m.position, m.lessons.map (·.position)))
      = (processImport (flattenSnap okSnap)).map
        (fun nm => (nm.name, nm.position, nm.lessons.map (·.position))) :=
  ⟨(replace_positions_amended.1 (flattenSnap okSnap)).1,
   replace_positions_amended.2 okSnap 7 (by decide) (by decide) (by decide)
     (by decide)⟩

theorem firstInvalidIdx_none :
    ∀ (items : List RawItem), (∀ it ∈ items, itemValid it = true) →
      firstInvalidIdx items = none := by
  intro items
  induction items with
  | nil => intro _; rfl
  | cons it rest ih =>
      intro h
      rw [firstInvalidIdx, if_pos (h it (List.mem_cons_self it rest)),
        ih (fun x hx => h x (List.mem_cons_of_mem it hx))]
      rfl

/-- Modules without lessons contribute nothing to the export. -/
theorem exportRecords_filter (ms : List Module) :
    exportRecords (ms.filter (fun m => !m.lessons.isEmpty)) = exportRecords ms := by
  induction ms with
  | nil => rfl
  | cons m rest ih =>
      rw [List.filter_cons]
      by_cases h : m.lessons.isEmpty
      · have hnil : m.lessons = [] := List.isEmpty_iff.mp h
        simp only [h, Bool.not_true]
        rw [if_neg (by simp), ih]
        unfold exportRecords
        rw [List.flatMap_cons, hnil]
        rfl
      · have hb : (!m.lessons.isEmpty) = true := by
          simpa using h
        rw [if_pos hb]
        unfold exportRecords
        rw [List.flatMap_cons, List.flatMap_cons]
        exact congrArg (m.lessons.map (rawOfLesson m.name) ++ ·) ih

theorem flatMap_mapIdxFrom (f : Nat → α → β) (h : β → List γ) (g : α → List γ) :
    ∀ (n : Nat) (l : List α), (∀ i a, a ∈ l → h (f i a) = g a) →
      (mapIdxFrom f n l).flatMap h = l.flatMap g := by
  intro n l
  induction l generalizing n with
  | nil => intro _; rfl
  | cons a as ih =>
      intro hp
      show h (f n a) ++ (mapIdxFrom f (n + 1) as).flatMap h = g a ++ as.flatMap g
      rw [hp n a (List.mem_cons_self a as),
        ih (n + 1) (fun i x hx => hp i x (List.mem_cons_of_mem a hx))]

/-- C8 (counterexample): with two distinct modules both named M, separated
by N, the export flattens to the runs M,N,M but re-importing merges the two
M runs into a single module — the flattened record sequence comes back
permuted, not identical. -/
theorem export_import_duplicate_names :
    importFlow dupMs 0 (exportRecords dupMs)
      = (instantiateModules 0 (processImport (exportRecords dupMs)), Except.ok ()) ∧
    exportRecords (instantiateModules 0 (processImport (exportRecords dupMs)))
      ≠ exportRecords dupMs := by decide

/-- C8 (amended): for every hierarchy whose lesson-bearing modules have
pairwise-distinct names, whose exported records carry non-empty module names
and lesson titles, and whose stored video markup is present (possibly empty,
never null), the import of the exported records succeeds and recreates a
hierarchy with the identical flattened record sequence. -/
theorem export_import_roundtrip_amended :
    ∀ (ms store : List Module) (base : Nat),
      (∀ m ∈ ms, ∀ l ∈ m.lessons,
          m.name ≠ "" ∧ l.title ≠ "" ∧ l.video_iframe.isSome) →
      ((ms.filter (fun m => !m.lessons.isEmpty)).map (·.name)).Nodup →
      importFlow store base (exportRecords ms)
        = (instantiateModules base (processImport (exportRecords ms)), Except.ok ()) ∧
      exportRecords (instantiateModules base (processImport (exportRecords ms)))
        = exportRecords ms := by
  intro ms store base hok hnd
  have hvalid : firstInvalidIdx (exportRecords ms) = none := by
    apply firstInvalidIdx_none
    intro it hit
    obtain ⟨m, hm, hit2⟩ := List.mem_flatMap.mp hit
    obtain ⟨l, hl, rfl⟩ := List.mem_map.mp hit2
    obtain ⟨hname, htitle, _⟩ := hok m hm l hl
    unfold itemValid rawOfLesson
    simp [hname, htitle]
  refine ⟨?flow, ?round⟩
  case flow => unfold importFlow; rw [hvalid]
  case round =>
    have hgroup : groupByModule (exportRecords ms)
        = (ms.filter (fun m => !m.lessons.isEmpty)).map
            (fun m => (m.name, m.lessons.map (rawOfLesson m.name))) := by
      rw [← exportRecords_filter ms]
      have hflat : exportRecords (ms.filter (fun m => !m.lessons.isEmpty))
          = ((ms.filter (fun m => !m.lessons.isEmpty)).map
              (fun m => (m.name, m.lessons.map (rawOfLesson m.name)))).flatMap
              (fun g => g.2) := by
        rw [List.flatMap_map]
        rfl
      rw [hflat]
      apply groupByModule_flatten
      · rw [List.map_map]
        exact hnd
      · intro g hg
        obtain ⟨m, hm, rfl⟩ := List.mem_map.mp hg
        have := List.mem_filter.mp hm
        simp only [ne_eq, List.map_eq_nil_iff]
        intro hnil
        rw [hnil] at this
        simp at this
      · intro g hg it hit
        obtain ⟨m, hm, rfl⟩ := List.mem_map.mp hg
        obtain ⟨l, _, rfl⟩ := List.mem_map.mp hit
        rfl
    have hPI : instantiateModules base (processImport (exportRecords ms))
        = mapIdxFrom
            (fun i m =>
              ({ id := base + i, name := m.name, position := i,
                 lessons := mapIdxFrom (instantiateLesson (base + i)) 0
                   (buildLessons (m.lessons.map (rawOfLesson m.name))) } : Module))
            0 (ms.filter (fun m => !m.lessons.isEmpty)) := by
      unfold processImport instantiateModules
      rw [hgroup, mapIdxFrom_map, mapIdxFrom_mapIdxFrom]
    rw [hPI]
    have hstep := flatMap_mapIdxFrom
      (fun i m =>
        ({ id := base + i, name := m.name, position := i,
           lessons := mapIdxFrom (instantiateLesson (base + i)) 0
             (buildLessons (m.lessons.map (rawOfLesson m.name))) } : Module))
      (fun mm => mm.lessons.map (rawOfLesson mm.name))
      (fun m => m.lessons.map (rawOfLesson m.name))
      0 (ms.filter (fun m => !m.lessons.isEmpty)) ?pointwise
    case pointwise =>
      intro i m hm
      have hmem : m ∈ ms := (List.mem_filter.mp hm).1
      show (mapIdxFrom (instantiateLesson (base + i)) 0
          (buildLessons (m.lessons.map (rawOfLesson m.name)))).map (rawOfLesson m.name)
        = m.lessons.map (rawOfLesson m.name)
      unfold buildLessons
      rw [mapIdxFrom_map, mapIdxFrom_mapIdxFrom, map_mapIdxFrom,
        ← mapIdxFrom_const (rawOfLesson m.name) 0 m.lessons]
      apply mapIdxFrom_congr
      intro j l hget
      obtain ⟨-, -, hsome⟩ := hok m hmem l (List.get?_mem hget)
      have hv : some (l.video_iframe.getD "") = l.video_iframe := by
        cases hvv : l.video_iframe
        · rw [hvv] at hsome; cases hsome
        · rfl
      show (⟨some m.name, some l.title, some (l.video_iframe.getD ""), none⟩ : RawItem)
          = rawOfLesson m.name l
      unfold rawOfLesson
      rw [hv]
    have hfin := exportRecords_filter ms
    unfold exportRecords at hfin ⊢
    rw [hstep]
    exact hfin

/-- Witness for the amended C8 at a concrete well-formed hierarchy (with one
empty module). -/
theorem export_import_roundtrip_amended_witness :
    importFlow okMs 3 (exportRecords okMs)
      = (instantiateModules 3 (processImport (exportRecords okMs)), Except.ok ()) ∧
    exportRecords (instantiateModules 3 (processImport (exportRecords okMs)))
      = exportRecords okMs :=
  export_import_roundtrip_amended okMs okMs 3 (by decide) (by decide)

/-- With pairwise-distinct module positions and per-module distinct lesson
positions (the data model requires unique positions within a scope), the feed
keys come out strictly ordered by module position, then lesson position. -/
theorem apiKeys_pairwise (db : List Module)
    (hm : (db.map (·.position)).Nodup)
    (hl : ∀ m ∈ db, (m.lessons.map (·.position)).Nodup) :
    (apiKeys db).Pairwise lexLt := by
  have hperm := List.perm_insertionSort posLeM db
  have hsorted : (List.insertionSort posLeM db).Pairwise posLeM :=
    List.sorted_insertionSort posLeM db
  have hnd : ((List.insertionSort posLeM db).map (·.position)).Nodup :=
    ((hperm.map (·.position)).nodup_iff).mpr hm
  have hndpw : (List.insertionSort posLeM db).Pairwise
      (fun a b => a.position ≠ b.position) := List.pairwise_map.mp hnd
  have hlt : (List.insertionSort posLeM db).Pairwise
      (fun a b => a.position < b.position) :=
    (hsorted.and hndpw).imp (fun hab => Nat.lt_of_le_of_ne hab.1 hab.2)
  show ((sortModules db).map
      (fun m => m.lessons.map (fun l => (m.position, l.position)))).flatten.Pairwise lexLt
  rw [List.pairwise_flatten]
  constructor
  · intro ks hks
    obtain ⟨mm, hmm, rfl⟩ := List.mem_map.mp hks
    obtain ⟨m0, hm0, rfl⟩ := List.mem_map.mp hmm
    have hm0db : m0 ∈ db := (hperm.mem_iff).mp hm0
    have hlperm := List.perm_insertionSort posLeL m0.lessons
    have hlsorted : (List.insertionSort posLeL m0.lessons).Pairwise posLeL :=
      List.sorted_insertionSort posLeL m0.lessons
    have hlnd : ((List.insertionSort posLeL m0.lessons).map (·.position)).Nodup :=
      ((hlperm.map (·.position)).nodup_iff).mpr (hl m0 hm0db)
    have hlndpw : (List.insertionSort posLeL m0.lessons).Pairwise
        (fun a b => a.position ≠ b.position) := List.pairwise_map.mp hlnd
    have hllt : (List.insertionSort posLeL m0.lessons).Pairwise
        (fun a b => a.position < b.position) :=
      (hlsorted.and hlndpw).imp (fun hab => Nat.lt_of_le_of_ne hab.1 hab.2)
    rw [List.pairwise_map]
    exact hllt.imp (fun hab => Or.inr ⟨rfl, hab⟩)
  · rw [List.pairwise_map]
    unfold sortModules
    rw [List.pairwise_map]
    refine hlt.imp ?_
    intro m1 m2 h12 x hx y hy
    obtain ⟨l1, _, rfl⟩ := List.mem_map.mp hx
    obtain ⟨l2, _, rfl⟩ := List.mem_map.mp hy
    exact Or.inl h12

/-- C9: for a stored hierarchy whose positions are unique per scope (the data
model invariant), the feed returns 200 with exactly one record per lesson,
each `{module, title, videoIframe, url: null}` with the empty string
substituted for absent video markup, ordered by module position then lesson
position; on a fetch failure it returns 500 with `{error, message}`. -/
theorem courses_api_feed :
    ∀ (db : List Module),
      (db.map (·.position)).Nodup →
      (∀ m ∈ db, (m.lessons.map (·.position)).Nodup) →
      coursesApi (Except.ok db) = ⟨200, ApiBody.records (coursesApiData db)⟩ ∧
      (coursesApiData db).length = (db.map (fun m => m.lessons.length)).sum ∧
      (∀ r ∈ coursesApiData db, ∃ m ∈ db, ∃ l ∈ m.lessons,
          r = ⟨m.name, l.title, l.video_iframe.getD "", none⟩) ∧
      (apiKeys db).Pairwise lexLt ∧
      (∀ msg, coursesApi (Except.error msg)
        = ⟨500, ApiBody.failure "Internal server error" msg⟩) := by
  intro db hm hl
  refine ⟨rfl, ?len, ?shape, apiKeys_pairwise db hm hl, fun msg => rfl⟩
  case len =>
    unfold coursesApiData
    rw [List.length_flatMap]
    have h1 : (sortModules db).map (List.length ∘ fun m => m.lessons.map (transformRow m))
        = (sortModules db).map (fun m => m.lessons.length) := by
      apply List.map_congr_left
      intro m _
      exact List.length_map _ _
    rw [h1]
    have h2 : (sortModules db).map (fun m => m.lessons.length)
        = (List.insertionSort posLeM db).map (fun m => m.lessons.length) := by
      unfold sortModules
      rw [List.map_map]
      apply List.map_congr_left
      intro m _
      exact (List.perm_insertionSort posLeL m.lessons).length_eq
    rw [h2]
    exact ((List.perm_insertionSort posLeM db).map (fun m => m.lessons.length)).sum_eq
  case shape =>
    intro r hr
    unfold coursesApiData at hr
    obtain ⟨mm, hmm, hr2⟩ := List.mem_flatMap.mp hr
    obtain ⟨l, hlmem, rfl⟩ := List.mem_map.mp hr2
    unfold sortModules at hmm
    obtain ⟨m0, hm0, rfl⟩ := List.mem_map.mp hmm
    have hm0db : m0 ∈ db := ((List.perm_insertionSort posLeM db).mem_iff).mp hm0
    have hldb : l ∈ m0.lessons :=
      ((List.perm_insertionSort posLeL m0.lessons).mem_iff).mp hlmem
    exact ⟨m0, hm0db, l, hldb, rfl⟩

/-- Witness for C9 on a concrete out-of-order store with one absent video. -/
theorem courses_api_feed_witness :
    coursesApi (Except.ok apiDb) = ⟨200, ApiBody.records (coursesApiData apiDb)⟩ ∧
    (coursesApiData apiDb).length = (apiDb.map (fun m => m.lessons.length)).sum ∧
    (∀ r ∈ coursesApiData apiDb, ∃ m ∈ apiDb, ∃ l ∈ m.lessons,
        r = ⟨m.name, l.title, l.video_iframe.getD "", none⟩) ∧
    (apiKeys apiDb).Pairwise lexLt ∧
    (∀ msg, coursesApi (Except.error msg)
      = ⟨500, ApiBody.failure "Internal server error" msg⟩) :=
  courses_api_feed apiDb (by decide) (by decide)

end Course
